import Mathlib

/-!
Verification of the formula-parsing and property-aggregation core of
src/preprocess.py.

Modelling conventions (shallow embedding):

- Python floats are modelled as exact rationals.  The source computes plain
  sums, products and quotients of table values; the spec treats floating-point
  rounding as a non-requirement, so exact arithmetic is the reference
  semantics.
- The regex pattern r"([A-Z][a-z]*)(\d*\.?\d*)" is scanned by re.findall:
  at each position the engine either matches (one uppercase letter, a greedy
  run of lowercase letters, a greedy run of digits, an optional single dot,
  a second greedy run of digits) or skips one character.  Character classes
  are modelled over ASCII: Char.isUpper for [A-Z], Char.isLower for [a-z],
  Char.isDigit for the digit class.
- Python exceptions (ValueError from float("."), ZeroDivisionError from
  division by 0.0) are modelled by Option: none means the call raises.
- A Python dict is an insertion-ordered association list with unique keys;
  dict.get(k, 0) defaults to 0.  pandas set_index("Symbol")[col].to_dict()
  lets a later duplicate row overwrite an earlier one, modelled by looking
  the key up in the reversed row list.
-/

/-- Row of the elemental properties table (the columns kept by
read_elemental_properties). -/
structure ElementRow where
  symbol : String
  atomicWeight : ℚ
  neutronCrossSection : ℚ
  neutronMassAbsorption : ℚ
deriving DecidableEq

/-- Elemental properties table: list of rows, first column order preserved. -/
abbrev PropertiesTable := List ElementRow

/-- Lookup in a dict built by successive insertion: the last binding of a key
wins, as in pandas to_dict with duplicate index entries. -/
def dictGet (d : List (String × ℚ)) (k : String) : Option ℚ :=
  d.reverse.lookup k

/-- Python dict .get(k, 0): lookup with default 0. -/
def dictGetD (d : List (String × ℚ)) (k : String) : ℚ :=
  (dictGet d k).getD 0

/-- Column dict: Symbol to Neutron Cross Section. -/
def csDict (tbl : PropertiesTable) : List (String × ℚ) :=
  tbl.map (fun r => (r.symbol, r.neutronCrossSection))

/-- Column dict: Symbol to Atomic weight. -/
def weightDict (tbl : PropertiesTable) : List (String × ℚ) :=
  tbl.map (fun r => (r.symbol, r.atomicWeight))

/-- Column dict: Symbol to Neutron Mass Absorption. -/
def maDict (tbl : PropertiesTable) : List (String × ℚ) :=
  tbl.map (fun r => (r.symbol, r.neutronMassAbsorption))

/-- Set of valid element symbols taken from the Symbol column (membership is
all that is ever used of it). -/
def tableSymbols (tbl : PropertiesTable) : List String :=
  tbl.map (fun r => r.symbol)

/-- One re.findall scanning pass for r"([A-Z][a-z]*)(\d*\.?\d*)": at a
non-uppercase character no match starts and the engine advances one position;
at an uppercase character the greedy match produces the (symbol, suffix)
group pair and scanning resumes after it.  Fuel bounds the recursion; the
input length is always enough fuel. -/
def scanAux : Nat → List Char → List (String × String)
  | 0, _ => []
  | _ + 1, [] => []
  | fuel + 1, c :: cs =>
    if c.isUpper then
      let low := cs.takeWhile Char.isLower
      let r1 := cs.dropWhile Char.isLower
      let d1 := r1.takeWhile Char.isDigit
      let r2 := r1.dropWhile Char.isDigit
      if r2.head? = some '.' then
        let r3 := r2.tail
        (String.mk (c :: low), String.mk (d1 ++ '.' :: r3.takeWhile Char.isDigit)) ::
          scanAux fuel (r3.dropWhile Char.isDigit)
      else (String.mk (c :: low), String.mk d1) :: scanAux fuel r2
    else scanAux fuel cs

/-- All (symbol, numeric suffix) matches of the token pattern in the string,
in order: re.findall(pattern, formula). -/
def scan (cs : List Char) : List (String × String) :=
  scanAux cs.length cs

/-- Numeric value of a run of ASCII digits. -/
def digitsVal (ds : List Char) : Nat :=
  ds.foldl (fun a c => 10 * a + (c.toNat - 48)) 0

/-- Python float(s) for a string drawn from the suffix pattern d*.?d*:
digits, an optional dot, digits.  float("") and float(".") raise ValueError
(none); any other string of that shape converts exactly. -/
def pyFloat? (s : String) : Option ℚ :=
  let cs := s.data
  let d1 := cs.takeWhile Char.isDigit
  match cs.dropWhile Char.isDigit with
  | [] => if d1.isEmpty then none else some (digitsVal d1 : ℚ)
  | '.' :: rest2 =>
    if rest2.all Char.isDigit then
      if d1.isEmpty && rest2.isEmpty then none
      else some ((digitsVal d1 : ℚ) + (digitsVal rest2 : ℚ) / (10 : ℚ) ^ rest2.length)
    else none
  | _ => none

/-- Index contributed by one token: count = float(count) if count else 1.0. -/
def tokenIndex? (suffix : String) : Option ℚ :=
  if suffix = "" then some 1 else pyFloat? suffix

/-- Value of a token index with a failed float() defaulted to 0; it agrees
with tokenIndex? whenever parsing succeeds. -/
def tokenIndexD (suffix : String) : ℚ :=
  (tokenIndex? suffix).getD 0

/-- Sum of the indices of all scanned tokens naming a given element: a token
with empty suffix counts 1 (through tokenIndex?), any other token counts the
float() value of its suffix. -/
def sumIndicesD (e : String) (toks : List (String × String)) : ℚ :=
  toks.foldl (fun a t => if t.1 = e then a + tokenIndexD t.2 else a) 0

/-- Python dict update elements[elem] = elements.get(elem, 0) + count:
an existing key keeps its position and accumulates, a new key is appended. -/
def addEntry : List (String × ℚ) → String → ℚ → List (String × ℚ)
  | [], e, c => [(e, c)]
  | (k, v) :: rest, e, c =>
    if k = e then (k, v + c) :: rest else (k, v) :: addEntry rest e c

/-- Loop of parse_formula over the regex matches, threading the elements
dict; none if float() raises on some suffix. -/
def accumTokens : List (String × String) → List (String × ℚ) → Option (List (String × ℚ))
  | [], m => some m
  | t :: ts, m =>
    match tokenIndex? t.2 with
    | none => none
    | some c => accumTokens ts (addEntry m t.1 c)

/-- parse_formula of src/preprocess.py: scan the regex matches and fold them
into the elements dict. -/
def parse_formula (formula : String) : Option (List (String × ℚ)) :=
  accumTokens (scan formula.data) []

/-- is_valid_formula of src/preprocess.py: parse, then test that the set of
parsed symbols is a subset of the valid elements. -/
def is_valid_formula (formula : String) (valid_elements : List String) : Option Bool :=
  (parse_formula formula).map (fun m => m.all (fun p => valid_elements.contains p.1))

/-- Python float division: x / 0.0 raises ZeroDivisionError. -/
def pyDiv (a b : ℚ) : Option ℚ :=
  if b = 0 then none else some (a / b)

/-- Running sum of the values of an association list, left to right from 0,
as the Python loops and sum() do. -/
def sumValues (l : List (String × ℚ)) : ℚ :=
  l.foldl (fun a p => a + p.2) 0

/-- total_atoms = sum(parsed_elements.values()). -/
def totalAtoms (parsed : List (String × ℚ)) : ℚ :=
  sumValues parsed

/-- Dict comprehension dividing each value by a total, in order, raising at
the first division by zero.  Over an empty dict no division is evaluated. -/
def fractionsAux : List (String × ℚ) → ℚ → Option (List (String × ℚ))
  | [], _ => some []
  | p :: ps, t =>
    match pyDiv p.2 t with
    | none => none
    | some q => (fractionsAux ps t).map (fun l => (p.1, q) :: l)

/-- Body of calculate_compound_neutron_cross_section after parsing: atomic
fractions, then contribution = fraction * cross_sections.get(element, 0),
summed into the compound total. -/
def aggregateCrossSection (parsed : List (String × ℚ)) (tbl : PropertiesTable) :
    Option (ℚ × List (String × ℚ)) :=
  match fractionsAux parsed (totalAtoms parsed) with
  | none => none
  | some fracs =>
    let contribs := fracs.map (fun p => (p.1, p.2 * dictGetD (csDict tbl) p.1))
    some (sumValues contribs, contribs)

/-- calculate_compound_neutron_cross_section of src/preprocess.py. -/
def calculate_compound_neutron_cross_section (formula : String) (tbl : PropertiesTable) :
    Option (ℚ × List (String × ℚ)) :=
  (parse_formula formula).bind (fun parsed => aggregateCrossSection parsed tbl)

/-- mass_contributions: mass = count * atomic_weights.get(element, 0). -/
def massContribs (parsed : List (String × ℚ)) (tbl : PropertiesTable) :
    List (String × ℚ) :=
  parsed.map (fun p => (p.1, p.2 * dictGetD (weightDict tbl) p.1))

/-- total_mass accumulated over the mass contributions from 0.0. -/
def totalMass (parsed : List (String × ℚ)) (tbl : PropertiesTable) : ℚ :=
  sumValues (massContribs parsed tbl)

/-- Body of calculate_compound_neutron_mass_absorption after parsing: mass
contributions, mass fractions, then contribution = fraction *
mass_absorptions.get(element, 0), summed into the compound total. -/
def aggregateMassAbsorption (parsed : List (String × ℚ)) (tbl : PropertiesTable) :
    Option (ℚ × List (String × ℚ)) :=
  match fractionsAux (massContribs parsed tbl) (totalMass parsed tbl) with
  | none => none
  | some fracs =>
    let contribs := fracs.map (fun p => (p.1, p.2 * dictGetD (maDict tbl) p.1))
    some (sumValues contribs, contribs)

/-- calculate_compound_neutron_mass_absorption of src/preprocess.py. -/
def calculate_compound_neutron_mass_absorption (formula : String) (tbl : PropertiesTable) :
    Option (ℚ × List (String × ℚ)) :=
  (parse_formula formula).bind (fun parsed => aggregateMassAbsorption parsed tbl)

/-- Row of the plotting dataframe. -/
structure PlotRow where
  formula : String
  neutronCrossSection : ℚ
  neutronMassAbsorption : ℚ
deriving DecidableEq

/-- create_plotting_dataframe of src/preprocess.py: for each formula in
order, skip it if invalid, otherwise append a row with both compound
aggregates; any exception raised along the way aborts the whole loop. -/
def create_plotting_dataframe : List String → PropertiesTable → Option (List PlotRow)
  | [], _ => some []
  | f :: fs, tbl =>
    match is_valid_formula f (tableSymbols tbl) with
    | none => none
    | some false => create_plotting_dataframe fs tbl
    | some true =>
      match calculate_compound_neutron_cross_section f tbl,
            calculate_compound_neutron_mass_absorption f tbl with
      | some cr, some ma =>
        (create_plotting_dataframe fs tbl).map
          (fun rest =>
            { formula := f, neutronCrossSection := cr.1,
              neutronMassAbsorption := ma.1 } :: rest)
      | _, _ => none

/-! Helper lemmas -/

/-- ASCII digits are not lowercase letters. -/
theorem not_lower_of_digit {c : Char} (h : c.isDigit = true) : c.isLower = false := by
  revert h
  simp only [Char.isDigit, Char.isLower, Bool.and_eq_true, decide_eq_true_eq,
    Bool.and_eq_false_iff, decide_eq_false_iff_not, UInt32.le_def, BitVec.le_def]
  intro h
  have e1 : ((48 : UInt32)).toBitVec.toNat = 48 := rfl
  have e2 : ((57 : UInt32)).toBitVec.toNat = 57 := rfl
  have e3 : ((97 : UInt32)).toBitVec.toNat = 97 := rfl
  omega

/-- Lists of elements all satisfying p pass through takeWhile. -/
theorem takeWhile_append_all {α : Type} {p : α → Bool} :
    ∀ (l r : List α), (∀ c ∈ l, p c = true) → (l ++ r).takeWhile p = l ++ r.takeWhile p := by
  intro l r h
  induction l with
  | nil => simp
  | cons a l ih =>
    have ha : p a = true := h a (by simp)
    simp only [List.cons_append, List.takeWhile_cons, ha, if_true]
    simp only [List.cons.injEq, true_and]
    exact ih (fun c hc => h c (by simp [hc]))

/-- Lists of elements all satisfying p are removed by dropWhile. -/
theorem dropWhile_append_all {α : Type} {p : α → Bool} :
    ∀ (l r : List α), (∀ c ∈ l, p c = true) → (l ++ r).dropWhile p = r.dropWhile p := by
  intro l r h
  induction l with
  | nil => simp
  | cons a l ih =>
    have ha : p a = true := h a (by simp)
    simp only [List.cons_append, List.dropWhile_cons, ha, if_true]
    exact ih (fun c hc => h c (by simp [hc]))

/-- A list whose elements all satisfy p is its own takeWhile. -/
theorem takeWhile_eq_self_of_all {α : Type} {p : α → Bool} (l : List α)
    (h : ∀ c ∈ l, p c = true) : l.takeWhile p = l := by
  have := takeWhile_append_all (p := p) l [] h
  simpa using this

/-- A list whose elements all satisfy p has empty dropWhile. -/
theorem dropWhile_eq_nil_of_all {α : Type} {p : α → Bool} (l : List α)
    (h : ∀ c ∈ l, p c = true) : l.dropWhile p = [] := by
  have := dropWhile_append_all (p := p) l [] h
  simpa using this

/-- Lookup misses keys that are not in the list. -/
theorem lookup_eq_none_of_not_mem {l : List (String × ℚ)} {k : String}
    (h : k ∉ l.map Prod.fst) : l.lookup k = none := by
  induction l with
  | nil => rfl
  | cons p l ih =>
    simp only [List.map_cons, List.mem_cons, not_or] at h
    have hne : (k == p.1) = false := by
      simp only [beq_eq_false_iff_ne, ne_eq]
      exact h.1
    simp only [List.lookup, hne]
    exact ih h.2

/-- A symbol outside the table misses every column dict built from it. -/
theorem dictGet_map_eq_none {tbl : PropertiesTable} {e : String} (g : ElementRow → ℚ)
    (h : e ∉ tableSymbols tbl) :
    dictGet (tbl.map (fun r => (r.symbol, g r))) e = none := by
  unfold dictGet
  apply lookup_eq_none_of_not_mem
  intro hmem
  apply h
  simp only [List.map_reverse, List.mem_reverse, List.map_map] at hmem
  simpa [tableSymbols, Function.comp] using hmem

/-- Membership of a fraction entry for every element of the input dict. -/
theorem fractionsAux_mem {l : List (String × ℚ)} {t : ℚ} {fracs : List (String × ℚ)}
    (hf : fractionsAux l t = some fracs) {e : String} {c : ℚ} (hm : (e, c) ∈ l) :
    ∃ q, (e, q) ∈ fracs := by
  induction l generalizing fracs with
  | nil => simp at hm
  | cons p ps ih =>
    simp only [fractionsAux] at hf
    cases hd : pyDiv p.2 t with
    | none => rw [hd] at hf; simp at hf
    | some q =>
      rw [hd] at hf
      cases hrest : fractionsAux ps t with
      | none => rw [hrest] at hf; simp at hf
      | some fr =>
        rw [hrest] at hf
        have hf2 : (p.1, q) :: fr = fracs := by simpa using hf
        subst hf2
        rcases List.mem_cons.mp hm with h1 | h2
        · exact ⟨q, by simp [← h1]⟩
        · rcases ih hrest h2 with ⟨q2, hq2⟩
          exact ⟨q2, by simp [hq2]⟩

/-- scanAux yields no matches on the empty string, whatever the fuel. -/
theorem scanAux_nil (fuel : Nat) : scanAux fuel [] = [] := by
  cases fuel <;> rfl

/-- Keys after addEntry: unchanged for a present key, appended otherwise. -/
theorem addEntry_keys (m : List (String × ℚ)) (e : String) (c : ℚ) :
    (addEntry m e c).map Prod.fst =
      if e ∈ m.map Prod.fst then m.map Prod.fst else m.map Prod.fst ++ [e] := by
  induction m with
  | nil => simp [addEntry]
  | cons p ps ih =>
    obtain ⟨k, v⟩ := p
    by_cases hk : k = e
    · subst hk
      simp [addEntry]
    · have hek : ¬ e = k := fun h => hk h.symm
      simp only [addEntry, if_neg hk, List.map_cons]
      rw [ih]
      by_cases hm : e ∈ ps.map Prod.fst
      · simp [hm, hek]
      · simp [hm, hek]

/-- Defaulted lookup after addEntry: the updated key gains c, others keep
their value. -/
theorem addEntry_lookup (m : List (String × ℚ)) (e : String) (c : ℚ) (x : String) :
    ((addEntry m e c).lookup x).getD 0 =
      (m.lookup x).getD 0 + (if e = x then c else 0) := by
  induction m with
  | nil =>
    by_cases hx : x = e
    · subst hx
      simp [addEntry, List.lookup]
    · have hex : ¬ e = x := fun h => hx h.symm
      have hb : (x == e) = false := by simp [hx]
      simp [addEntry, List.lookup, hb, hex]
  | cons p ps ih =>
    obtain ⟨k, v⟩ := p
    by_cases hk : k = e
    · subst hk
      by_cases hx : x = k
      · subst hx
        simp only [addEntry, if_pos rfl, List.lookup, beq_self_eq_true]
        simp [add_assoc]
      · have hkx : ¬ k = x := fun h => hx h.symm
        have hb : (x == k) = false := by simp [hx]
        simp [addEntry, List.lookup, hb, hkx]
    · simp only [addEntry, if_neg hk]
      by_cases hx : x = k
      · subst hx
        have hne : ¬ e = x := fun h => hk h.symm
        simp [List.lookup, hne]
      · have hb : (x == k) = false := by simp [hx]
        simp [List.lookup, hb, ih]

/-- tokenIndexD agrees with a successful tokenIndex?. -/
theorem tokenIndexD_of_some {s : String} {c : ℚ} (h : tokenIndex? s = some c) :
    tokenIndexD s = c := by
  simp [tokenIndexD, h]

/-- Folding the index sum from an arbitrary start. -/
theorem sumIndicesD_foldl_from (e : String) (ts : List (String × String)) (a : ℚ) :
    ts.foldl (fun b t => if t.1 = e then b + tokenIndexD t.2 else b) a
      = a + sumIndicesD e ts := by
  induction ts generalizing a with
  | nil => simp [sumIndicesD]
  | cons t ts ih =>
    have h0 : sumIndicesD e (t :: ts)
        = ts.foldl (fun b u => if u.1 = e then b + tokenIndexD u.2 else b)
            (if t.1 = e then 0 + tokenIndexD t.2 else 0) := rfl
    simp only [List.foldl_cons]
    rw [h0, ih, ih]
    by_cases h : t.1 = e
    · rw [if_pos h, if_pos h]
      ring
    · rw [if_neg h, if_neg h]
      ring

/-- Unfolding the index sum one token at a time. -/
theorem sumIndicesD_cons (e : String) (t : String × String) (ts : List (String × String)) :
    sumIndicesD e (t :: ts) = (if t.1 = e then tokenIndexD t.2 else 0) + sumIndicesD e ts := by
  have h0 : sumIndicesD e (t :: ts)
      = ts.foldl (fun b u => if u.1 = e then b + tokenIndexD u.2 else b)
          (if t.1 = e then 0 + tokenIndexD t.2 else 0) := rfl
  rw [h0, sumIndicesD_foldl_from]
  by_cases h : t.1 = e <;> simp [h]

/-- Value invariant of the parse accumulation loop. -/
theorem accumTokens_lookup :
    ∀ (toks : List (String × String)) (m0 m : List (String × ℚ)),
      accumTokens toks m0 = some m →
      ∀ e, ((m.lookup e).getD 0) = ((m0.lookup e).getD 0) + sumIndicesD e toks := by
  intro toks
  induction toks with
  | nil =>
    intro m0 m h e
    simp only [accumTokens, Option.some.injEq] at h
    subst h
    simp [sumIndicesD]
  | cons t ts ih =>
    intro m0 m h e
    simp only [accumTokens] at h
    cases hti : tokenIndex? t.2 with
    | none => rw [hti] at h; simp at h
    | some c =>
      rw [hti] at h
      rw [ih _ _ h e, addEntry_lookup, sumIndicesD_cons, tokenIndexD_of_some hti]
      by_cases he : t.1 = e
      · rw [if_pos he]
        ring
      · rw [if_neg he]
        ring

/-- The accumulation loop preserves uniqueness of the dict keys. -/
theorem accumTokens_nodup :
    ∀ (toks : List (String × String)) (m0 m : List (String × ℚ)),
      accumTokens toks m0 = some m →
      (m0.map Prod.fst).Nodup → (m.map Prod.fst).Nodup := by
  intro toks
  induction toks with
  | nil =>
    intro m0 m h hn
    simp only [accumTokens, Option.some.injEq] at h
    subst h
    exact hn
  | cons t ts ih =>
    intro m0 m h hn
    simp only [accumTokens] at h
    cases hti : tokenIndex? t.2 with
    | none => rw [hti] at h; simp at h
    | some c =>
      rw [hti] at h
      apply ih _ _ h
      rw [addEntry_keys]
      by_cases hm : t.1 ∈ m0.map Prod.fst
      · rw [if_pos hm]
        exact hn
      · rw [if_neg hm, List.nodup_append]
        refine ⟨hn, List.nodup_singleton _, ?_⟩
        intro a ha hb
        rw [List.mem_singleton] at hb
        subst hb
        exact hm ha

/-- Key membership after the accumulation loop: exactly the starting keys and
the scanned token symbols. -/
theorem accumTokens_mem_keys :
    ∀ (toks : List (String × String)) (m0 m : List (String × ℚ)),
      accumTokens toks m0 = some m →
      ∀ e, e ∈ m.map Prod.fst ↔ (e ∈ m0.map Prod.fst ∨ e ∈ toks.map Prod.fst) := by
  intro toks
  induction toks with
  | nil =>
    intro m0 m h e
    simp only [accumTokens, Option.some.injEq] at h
    subst h
    simp
  | cons t ts ih =>
    intro m0 m h e
    simp only [accumTokens] at h
    cases hti : tokenIndex? t.2 with
    | none => rw [hti] at h; simp at h
    | some c =>
      rw [hti] at h
      rw [ih _ _ h e, addEntry_keys]
      by_cases hm : t.1 ∈ m0.map Prod.fst
      · simp only [hm, if_true, List.map_cons, List.mem_cons]
        constructor
        · rintro (h1 | h2)
          · exact Or.inl h1
          · exact Or.inr (Or.inr h2)
        · rintro (h1 | h2 | h3)
          · exact Or.inl h1
          · exact Or.inl (h2 ▸ hm)
          · exact Or.inr h3
      · simp only [hm, if_false, List.mem_append, List.mem_singleton, List.map_cons,
          List.mem_cons]
        tauto

/-- With unique keys, a member pair is what lookup returns. -/
theorem lookup_of_mem_nodup :
    ∀ {m : List (String × ℚ)} {e : String} {v : ℚ},
      (m.map Prod.fst).Nodup → (e, v) ∈ m → m.lookup e = some v := by
  intro m
  induction m with
  | nil => intro e v _ hm; simp at hm
  | cons p ps ih =>
    intro e v hn hm
    obtain ⟨k, w⟩ := p
    rcases List.mem_cons.mp hm with h1 | h2
    · simp only [Prod.mk.injEq] at h1
      obtain ⟨rfl, rfl⟩ := h1
      simp [List.lookup]
    · have hk : e ≠ k := by
        intro he
        subst he
        have : e ∈ ps.map Prod.fst := List.mem_map.mpr ⟨(e, v), h2, rfl⟩
        simp only [List.map_cons, List.nodup_cons] at hn
        exact hn.1 this
      have hb : (e == k) = false := by simp [hk]
      simp only [List.lookup, hb]
      have hn2 : (ps.map Prod.fst).Nodup := by
        simp only [List.map_cons, List.nodup_cons] at hn
        exact hn.2
      exact ih hn2 h2

/-- C1: for every formula string parsing to a single element with a nonzero
index, with that element present in the reference table (nonzero atomic
weight for the mass case), the compound neutron cross section is exactly the
element's reference cross section, and the compound neutron mass absorption
is exactly the element's reference mass absorption. -/
theorem claim1_single_element_totals :
    ∀ (f : String) (e : String) (n : ℚ) (tbl : PropertiesTable) (v w a : ℚ),
      parse_formula f = some [(e, n)] → n ≠ 0 →
      dictGet (csDict tbl) e = some v →
      dictGet (weightDict tbl) e = some w → w ≠ 0 →
      dictGet (maDict tbl) e = some a →
      (calculate_compound_neutron_cross_section f tbl).map Prod.fst = some v ∧
      (calculate_compound_neutron_mass_absorption f tbl).map Prod.fst = some a := by
  intro f e n tbl v w a hp hn hv hw hwne ha
  constructor
  · have hfrac : fractionsAux [(e, n)] (totalAtoms [(e, n)]) = some [(e, 1)] := by
      have htot : totalAtoms [(e, n)] = n := by simp [totalAtoms, sumValues]
      rw [htot]
      simp [fractionsAux, pyDiv, hn, div_self hn]
    simp [calculate_compound_neutron_cross_section, hp, aggregateCrossSection, hfrac,
      sumValues, dictGetD, hv]
  · have hmc : massContribs [(e, n)] tbl = [(e, n * w)] := by
      simp [massContribs, dictGetD, hw]
    have hnw : n * w ≠ 0 := mul_ne_zero hn hwne
    have hfrac2 : fractionsAux (massContribs [(e, n)] tbl) (totalMass [(e, n)] tbl)
        = some [(e, 1)] := by
      have htm : totalMass [(e, n)] tbl = n * w := by
        simp [totalMass, hmc, sumValues]
      rw [htm, hmc]
      simp [fractionsAux, pyDiv, hnw, div_self hnw]
    simp [calculate_compound_neutron_mass_absorption, hp, aggregateMassAbsorption, hfrac2,
      sumValues, dictGetD, ha]

/-- Witness for claim1_single_element_totals: formula H2 over a one-row
table. -/
theorem claim1_single_element_totals_witness :
    (calculate_compound_neutron_cross_section "H2" [⟨"H", 1, 5, 7⟩]).map Prod.fst
      = some 5 ∧
    (calculate_compound_neutron_mass_absorption "H2" [⟨"H", 1, 5, 7⟩]).map Prod.fst
      = some 7 :=
  claim1_single_element_totals "H2" "H" 2 [⟨"H", 1, 5, 7⟩] 5 1 7
    (by decide) (by decide) (by decide) (by decide) (by decide) (by decide)

/-- C2 counterexample: on the empty ParsedFormula (indices summing to zero)
neither aggregator fails; the dict comprehensions iterate over nothing, no
division is evaluated, and both return total 0.0 with empty contributions. -/
theorem claim2_counterexample :
    aggregateCrossSection [] [] = some (0, []) ∧
    aggregateMassAbsorption [] [] = some (0, []) := by
  constructor <;> rfl

/-- C2 amended: for every nonempty ParsedFormula whose indices sum to zero,
the cross-section aggregator raises a division-by-zero, and for every
nonempty ParsedFormula of total mass zero the mass-absorption aggregator
does; the empty ParsedFormula instead returns total 0.0 without error. -/
theorem claim2_zero_total_divzero :
    (∀ (parsed : List (String × ℚ)) (tbl : PropertiesTable),
      parsed ≠ [] → totalAtoms parsed = 0 → aggregateCrossSection parsed tbl = none) ∧
    (∀ (parsed : List (String × ℚ)) (tbl : PropertiesTable),
      parsed ≠ [] → totalMass parsed tbl = 0 → aggregateMassAbsorption parsed tbl = none) := by
  constructor
  · intro parsed tbl hne htot
    cases parsed with
    | nil => exact absurd rfl hne
    | cons p ps =>
      unfold aggregateCrossSection
      rw [htot]
      simp [fractionsAux, pyDiv]
  · intro parsed tbl hne htot
    cases parsed with
    | nil => exact absurd rfl hne
    | cons p ps =>
      unfold aggregateMassAbsorption
      rw [htot]
      simp [massContribs, fractionsAux, pyDiv]

/-- Witness for claim2_zero_total_divzero: nonempty parsed formulas with zero
total atoms, and with zero total mass against the empty table. -/
theorem claim2_zero_total_divzero_witness :
    aggregateCrossSection [("H", 0)] [] = none ∧
    aggregateMassAbsorption [("H", 1)] [] = none := by
  constructor
  · exact claim2_zero_total_divzero.1 [("H", 0)] [] (by simp)
      (by simp [totalAtoms, sumValues])
  · exact claim2_zero_total_divzero.2 [("H", 1)] [] (by simp)
      (by simp [totalMass, massContribs, sumValues, dictGetD, dictGet, weightDict])

/-- C4: the empty ParsedFormula, as produced by parsing the empty string or a
string with no uppercase letter, makes both aggregators return total 0.0 and
empty contributions without raising any division error. -/
theorem claim4_empty_formula_aggregates :
    parse_formula "" = some [] ∧
    parse_formula "abc123" = some [] ∧
    ∀ tbl : PropertiesTable,
      aggregateCrossSection [] tbl = some (0, []) ∧
      aggregateMassAbsorption [] tbl = some (0, []) :=
  ⟨rfl, rfl, fun _ => ⟨rfl, rfl⟩⟩

/-- C8 counterexample: a ParsedFormula whose only element is absent from the
table makes the mass aggregator raise a division-by-zero (total mass 0), so
absence is not always errorless. -/
theorem claim8_counterexample :
    aggregateMassAbsorption [("X", 1)] [] = none := by
  simp [aggregateMassAbsorption, massContribs, totalMass, sumValues, dictGetD, dictGet,
    weightDict, fractionsAux, pyDiv]

/-- C8 amended: property lookups of an element absent from the table default
to 0, and whenever an aggregator returns at all, the absent element's entry
in the contributions is exactly 0; the mass aggregator may still raise when
the absence makes the total mass zero. -/
theorem claim8_absent_element_zero_contribution :
    (∀ (parsed : List (String × ℚ)) (tbl : PropertiesTable) (t : ℚ)
        (contribs : List (String × ℚ)) (e : String) (c : ℚ),
      aggregateCrossSection parsed tbl = some (t, contribs) →
      (e, c) ∈ parsed → e ∉ tableSymbols tbl → (e, 0) ∈ contribs) ∧
    (∀ (parsed : List (String × ℚ)) (tbl : PropertiesTable) (t : ℚ)
        (contribs : List (String × ℚ)) (e : String) (c : ℚ),
      aggregateMassAbsorption parsed tbl = some (t, contribs) →
      (e, c) ∈ parsed → e ∉ tableSymbols tbl → (e, 0) ∈ contribs) := by
  constructor
  · intro parsed tbl t contribs e c hagg hm hnot
    unfold aggregateCrossSection at hagg
    cases hf : fractionsAux parsed (totalAtoms parsed) with
    | none => rw [hf] at hagg; simp at hagg
    | some fracs =>
      rw [hf] at hagg
      simp only [Option.some.injEq, Prod.mk.injEq] at hagg
      obtain ⟨q, hq⟩ := fractionsAux_mem hf hm
      have hcs : dictGetD (csDict tbl) e = 0 := by
        unfold dictGetD csDict
        rw [dictGet_map_eq_none (fun r => r.neutronCrossSection) hnot]
        rfl
      rw [← hagg.2]
      exact List.mem_map.mpr ⟨(e, q), hq, by simp [hcs]⟩
  · intro parsed tbl t contribs e c hagg hm hnot
    unfold aggregateMassAbsorption at hagg
    cases hf : fractionsAux (massContribs parsed tbl) (totalMass parsed tbl) with
    | none => rw [hf] at hagg; simp at hagg
    | some fracs =>
      rw [hf] at hagg
      simp only [Option.some.injEq, Prod.mk.injEq] at hagg
      have hmm : (e, c * dictGetD (weightDict tbl) e) ∈ massContribs parsed tbl :=
        List.mem_map.mpr ⟨(e, c), hm, rfl⟩
      obtain ⟨q, hq⟩ := fractionsAux_mem hf hmm
      have hma : dictGetD (maDict tbl) e = 0 := by
        unfold dictGetD maDict
        rw [dictGet_map_eq_none (fun r => r.neutronMassAbsorption) hnot]
        rfl
      rw [← hagg.2]
      exact List.mem_map.mpr ⟨(e, q), hq, by simp [hma]⟩

/-- Witness for claim8_absent_element_zero_contribution: the unknown element
X against the empty table contributes exactly 0 to the cross section. -/
theorem claim8_absent_element_zero_contribution_witness :
    ("X", (0 : ℚ)) ∈ ([("X", (0 : ℚ))] : List (String × ℚ)) :=
  claim8_absent_element_zero_contribution.1 [("X", 1)] [] 0 [("X", 0)] "X" 1
    (by simp [aggregateCrossSection, fractionsAux, pyDiv, totalAtoms, sumValues,
      dictGetD, dictGet, csDict])
    (by simp) (by simp [tableSymbols])

/-- C5: parsing keeps dict keys unique (no duplicate entries), the keys are
exactly the scanned token symbols, and for every formula each entry's index
is the sum of the individual token indices of its symbol, so repeated
occurrences of the same symbol are accumulated into one summed entry, as in
GdGd2 parsing to the single entry Gd with index 3.0. -/
theorem claim5_duplicate_tokens_accumulate :
    parse_formula "GdGd2" = some [("Gd", 3)] ∧
    ∀ (f : String) (m : List (String × ℚ)), parse_formula f = some m →
      (m.map Prod.fst).Nodup ∧
      (∀ e, e ∈ m.map Prod.fst ↔ e ∈ (scan f.data).map Prod.fst) ∧
      ∀ e v, (e, v) ∈ m → v = sumIndicesD e (scan f.data) := by
  constructor
  · have hscan : scan "GdGd2".data = [("Gd", ""), ("Gd", "2")] := by decide
    have h1 : tokenIndex? "" = some 1 := by decide
    have h2 : tokenIndex? "2" = some 2 := by decide
    have hstep : parse_formula "GdGd2" = accumTokens [("Gd", ""), ("Gd", "2")] [] := by
      rw [parse_formula, hscan]
    rw [hstep]
    simp only [accumTokens, h1, h2, addEntry, if_pos rfl]
    norm_num
  · intro f m hp
    rw [parse_formula] at hp
    have hnd := accumTokens_nodup _ _ _ hp (by simp)
    refine ⟨hnd, ?_, ?_⟩
    · intro e
      have h := accumTokens_mem_keys _ _ _ hp e
      simpa using h
    · intro e v hm
      have hl := accumTokens_lookup _ _ _ hp e
      rw [lookup_of_mem_nodup hnd hm] at hl
      simpa using hl

/-- Witness for claim5_duplicate_tokens_accumulate at the parse of GdGd2. -/
theorem claim5_duplicate_tokens_accumulate_witness :
    (([("Gd", (3 : ℚ))] : List (String × ℚ)).map Prod.fst).Nodup ∧
    (∀ e, e ∈ ([("Gd", (3 : ℚ))] : List (String × ℚ)).map Prod.fst ↔
      e ∈ (scan "GdGd2".data).map Prod.fst) ∧
    ∀ e v, (e, v) ∈ ([("Gd", (3 : ℚ))] : List (String × ℚ)) →
      v = sumIndicesD e (scan "GdGd2".data) :=
  claim5_duplicate_tokens_accumulate.2 "GdGd2" [("Gd", 3)]
    claim5_duplicate_tokens_accumulate.1

/-- C10: in every successful parse, the index recorded for an element is the
sum of that element's token indices over the scan, in which a token with no
numeric suffix contributes exactly 1.0 (see tokenIndex? and tokenIndexD). -/
theorem claim10_no_suffix_counts_one :
    ∀ (f : String) (m : List (String × ℚ)) (e : String) (v : ℚ),
      parse_formula f = some m → (e, v) ∈ m → v = sumIndicesD e (scan f.data) := by
  intro f m e v hp hm
  rw [parse_formula] at hp
  have hn := accumTokens_nodup _ _ _ hp (by simp)
  have hl := accumTokens_lookup _ _ _ hp e
  rw [lookup_of_mem_nodup hn hm] at hl
  simpa using hl

/-- Witness for claim10_no_suffix_counts_one: the O token of H2O has no
suffix and its parsed index is the token sum 1.0. -/
theorem claim10_no_suffix_counts_one_witness :
    (1 : ℚ) = sumIndicesD "O" (scan "H2O".data) :=
  claim10_no_suffix_counts_one "H2O" [("H", 2), ("O", 1)] "O" 1 (by decide) (by decide)

/-- C9: a formula of exactly one element symbol (uppercase letter plus
lowercase letters) followed by an integer literal parses to the singleton
mapping of that symbol to the value of the literal. -/
theorem claim9_symbol_followed_by_int :
    ∀ (c : Char) (lows digits : List Char),
      c.isUpper = true → (∀ x ∈ lows, x.isLower = true) →
      digits ≠ [] → (∀ x ∈ digits, x.isDigit = true) →
      parse_formula (String.mk (c :: (lows ++ digits)))
        = some [(String.mk (c :: lows), (digitsVal digits : ℚ))] := by
  intro c lows digits hc hl hd0 hdig
  obtain ⟨d, ds, rfl⟩ : ∃ d ds, digits = d :: ds := by
    cases digits with
    | nil => exact absurd rfl hd0
    | cons d ds => exact ⟨d, ds, rfl⟩
  have hdd : Char.isDigit d = true := hdig d (by simp)
  have hld : Char.isLower d = false := not_lower_of_digit hdd
  have hlow : (lows ++ d :: ds).takeWhile Char.isLower = lows := by
    rw [takeWhile_append_all lows (d :: ds) hl]
    simp [List.takeWhile_cons, hld]
  have hdrop : (lows ++ d :: ds).dropWhile Char.isLower = d :: ds := by
    rw [dropWhile_append_all lows (d :: ds) hl]
    simp [List.dropWhile_cons, hld]
  have htake : (d :: ds).takeWhile Char.isDigit = d :: ds :=
    takeWhile_eq_self_of_all _ hdig
  have hdropD : (d :: ds).dropWhile Char.isDigit = [] :=
    dropWhile_eq_nil_of_all _ hdig
  have hscan : scan (c :: (lows ++ d :: ds))
      = [(String.mk (c :: lows), String.mk (d :: ds))] := by
    show scanAux ((lows ++ d :: ds).length + 1) (c :: (lows ++ d :: ds)) = _
    simp only [scanAux]
    rw [if_pos hc, hlow, hdrop, htake, hdropD]
    simp [scanAux_nil]
  have hnemk : String.mk (d :: ds) ≠ "" := by
    intro h
    have h2 : (String.mk (d :: ds)).data = ("" : String).data := by rw [h]
    simp at h2
  have hfl : pyFloat? (String.mk (d :: ds)) = some ((digitsVal (d :: ds) : ℚ)) := by
    simp only [pyFloat?]
    rw [hdropD]
    simp [htake]
  have hmk : (String.mk (c :: (lows ++ d :: ds))).data = c :: (lows ++ d :: ds) := rfl
  rw [parse_formula, hmk, hscan]
  simp [accumTokens, tokenIndex?, hnemk, hfl, addEntry]

/-- Witness for claim9_symbol_followed_by_int at the formula H2. -/
theorem claim9_symbol_followed_by_int_witness :
    parse_formula (String.mk ['H', '2'])
      = some [(String.mk ['H'], (digitsVal ['2'] : ℚ))] :=
  claim9_symbol_followed_by_int 'H' [] ['2']
    (by decide) (by decide) (by decide) (by decide)

/-- Every suffix produced by the scan matches the numeric pattern: a run of
digits, or digits-dot-digits. -/
theorem scanAux_suffix_shape :
    ∀ (fuel : Nat) (l : List Char) (t : String × String), t ∈ scanAux fuel l →
      ∃ d1 d2 : List Char, (∀ x ∈ d1, x.isDigit = true) ∧ (∀ x ∈ d2, x.isDigit = true) ∧
        (t.2.data = d1 ++ d2 ∨ t.2.data = d1 ++ '.' :: d2) := by
  intro fuel
  induction fuel with
  | zero =>
    intro l t ht
    simp [scanAux] at ht
  | succ fuel ih =>
    intro l t ht
    cases l with
    | nil => simp [scanAux] at ht
    | cons c cs =>
      by_cases hc : c.isUpper = true
      · rw [scanAux, if_pos hc] at ht
        simp only [List.mem_cons] at ht
        by_cases hdot :
            ((cs.dropWhile Char.isLower).dropWhile Char.isDigit).head? = some '.'
        · rw [if_pos hdot] at ht
          simp only [List.mem_cons] at ht
          rcases ht with h1 | h2
          · refine ⟨(cs.dropWhile Char.isLower).takeWhile Char.isDigit,
              (((cs.dropWhile Char.isLower).dropWhile Char.isDigit).tail).takeWhile
                Char.isDigit, ?_, ?_, Or.inr ?_⟩
            · intro x hx
              exact List.mem_takeWhile_imp hx
            · intro x hx
              exact List.mem_takeWhile_imp hx
            · rw [h1]
          · exact ih _ _ h2
        · rw [if_neg hdot] at ht
          simp only [List.mem_cons] at ht
          rcases ht with h1 | h2
          · refine ⟨(cs.dropWhile Char.isLower).takeWhile Char.isDigit, [],
              ?_, by simp, Or.inl ?_⟩
            · intro x hx
              exact List.mem_takeWhile_imp hx
            · rw [h1]
              simp
          · exact ih _ _ h2
      · rw [scanAux, if_neg hc] at ht
        exact ih _ _ ht

/-- A nonempty suffix of the numeric pattern other than the lone dot is
accepted by float(). -/
theorem pyFloat_isSome_of_shape :
    ∀ (s : String) (d1 d2 : List Char), (∀ x ∈ d1, x.isDigit = true) →
      (∀ x ∈ d2, x.isDigit = true) →
      (s.data = d1 ++ d2 ∨ s.data = d1 ++ '.' :: d2) →
      s ≠ "" → s ≠ "." → (pyFloat? s).isSome = true := by
  intro s d1 d2 h1 h2 hsh hne hnd
  have hdata : s.data ≠ [] := by
    intro h
    apply hne
    apply String.ext
    simpa using h
  simp only [pyFloat?]
  rcases hsh with h | h
  · have hall : ∀ x ∈ d1 ++ d2, x.isDigit = true := by
      intro x hx
      rcases List.mem_append.mp hx with hx | hx
      exacts [h1 x hx, h2 x hx]
    rw [h, takeWhile_eq_self_of_all _ hall, dropWhile_eq_nil_of_all _ hall]
    have hfalse : (d1 ++ d2).isEmpty = false := by
      cases hie : (d1 ++ d2).isEmpty with
      | false => rfl
      | true =>
        exfalso
        apply hdata
        rw [h]
        exact List.isEmpty_iff.mp hie
    simp [hfalse]
  · have hdot : Char.isDigit '.' = false := by decide
    rw [h, takeWhile_append_all d1 _ h1, dropWhile_append_all d1 _ h1]
    simp only [List.takeWhile_cons, hdot, Bool.false_eq_true, if_false,
      List.append_nil, List.dropWhile_cons]
    have hall2 : d2.all Char.isDigit = true := List.all_eq_true.mpr h2
    have hne2 : (d1.isEmpty && d2.isEmpty) = false := by
      cases hd1 : d1.isEmpty with
      | false => simp
      | true =>
        cases hd2 : d2.isEmpty with
        | false => simp
        | true =>
          exfalso
          apply hnd
          apply String.ext
          have e1 : d1 = [] := List.isEmpty_iff.mp hd1
          have e2 : d2 = [] := List.isEmpty_iff.mp hd2
          rw [h, e1, e2]
          rfl
    simp [hall2, hne2]

/-- The accumulation loop succeeds when every token index converts. -/
theorem accumTokens_isSome :
    ∀ (toks : List (String × String)) (m0 : List (String × ℚ)),
      (∀ t ∈ toks, (tokenIndex? t.2).isSome = true) →
      (accumTokens toks m0).isSome = true := by
  intro toks
  induction toks with
  | nil =>
    intro m0 _
    rfl
  | cons t ts ih =>
    intro m0 h
    have ht := h t (by simp)
    cases hti : tokenIndex? t.2 with
    | none => rw [hti] at ht; simp at ht
    | some c =>
      simp only [accumTokens, hti]
      exact ih _ (fun u hu => h u (by simp [hu]))

/-- C3 counterexample: the suffix of H. matches the digit/decimal-point
pattern as a lone dot, yet parsing raises ValueError from float("."). -/
theorem claim3_counterexample : parse_formula "H." = none := by decide

/-- C3 amended: parsing succeeds on every formula string in which no scanned
numeric suffix is a lone dot; every such suffix (including the empty one)
converts, while a lone dot makes float() raise ValueError. -/
theorem claim3_parse_succeeds_without_lone_dot :
    ∀ f : String, (∀ t ∈ scan f.data, t.2 ≠ ".") → (parse_formula f).isSome = true := by
  intro f hno
  rw [parse_formula]
  apply accumTokens_isSome
  intro t ht
  by_cases he : t.2 = ""
  · simp [tokenIndex?, he]
  · obtain ⟨d1, d2, h1, h2, hsh⟩ := scanAux_suffix_shape f.data.length f.data t ht
    have hsome := pyFloat_isSome_of_shape t.2 d1 d2 h1 h2 hsh he (hno t ht)
    simpa [tokenIndex?, he] using hsome

/-- Witness for claim3_parse_succeeds_without_lone_dot on a formula with
integer, decimal and empty suffixes. -/
theorem claim3_parse_succeeds_without_lone_dot_witness :
    (parse_formula "H2.5O0.5Na").isSome = true :=
  claim3_parse_succeeds_without_lone_dot "H2.5O0.5Na" (by decide)

/-- C6: is_valid_formula returns true exactly when every parsed element
symbol is a member of the valid set; in particular XxY is invalid whenever
Xx is outside the set, even with Y inside it. -/
theorem claim6_is_valid_formula_iff :
    (∀ (f : String) (S : List String) (m : List (String × ℚ)),
      parse_formula f = some m →
      (is_valid_formula f S = some true ↔ ∀ p ∈ m, p.1 ∈ S)) ∧
    (∀ S : List String, "Xx" ∉ S → "Y" ∈ S → is_valid_formula "XxY" S = some false) := by
  constructor
  · intro f S m hp
    simp [is_valid_formula, hp, List.all_eq_true, List.contains_iff_exists_mem_beq]
  · intro S hxx hy
    have hp : parse_formula "XxY" = some [("Xx", 1), ("Y", 1)] := by decide
    have hcx : S.contains "Xx" = false := by
      cases hcc : S.contains "Xx" with
      | false => rfl
      | true =>
        exfalso
        apply hxx
        obtain ⟨b, hb, heq⟩ := List.contains_iff_exists_mem_beq.mp hcc
        rwa [show ("Xx" : String) = b from by simpa using heq]
    simp [is_valid_formula, hp, List.all_cons, hcx]
    exact fun h => absurd h hxx

/-- Witness for claim6_is_valid_formula_iff: the iff at a parsed formula and
the XxY refusal against the set containing only Y. -/
theorem claim6_is_valid_formula_iff_witness :
    (is_valid_formula "H2" ["H"] = some true ↔
      ∀ p ∈ ([("H", (2 : ℚ))] : List (String × ℚ)), p.1 ∈ ["H"]) ∧
    is_valid_formula "XxY" ["Y"] = some false :=
  ⟨claim6_is_valid_formula_iff.1 "H2" ["H"] [("H", 2)] (by decide),
   claim6_is_valid_formula_iff.2 ["Y"] (by decide) (by decide)⟩

/-- C7 counterexample: H0 is a valid formula over a table containing H, yet
the batch aggregation raises a division-by-zero on it (zero total atoms)
instead of returning its record. -/
theorem claim7_counterexample :
    is_valid_formula "H0" (tableSymbols [⟨"H", 1, 2, 3⟩]) = some true ∧
    create_plotting_dataframe ["H0"] [⟨"H", 1, 2, 3⟩] = none := by
  have hp : parse_formula "H0" = some [("H", 0)] := by decide
  have hval : is_valid_formula "H0" (tableSymbols [⟨"H", 1, 2, 3⟩]) = some true := by decide
  have hagg : aggregateCrossSection [("H", 0)] [⟨"H", 1, 2, 3⟩] = none := by
    have h0 : totalAtoms [("H", (0 : ℚ))] = 0 := by simp [totalAtoms, sumValues]
    unfold aggregateCrossSection
    rw [h0]
    simp [fractionsAux, pyDiv]
  have hcross : calculate_compound_neutron_cross_section "H0" [⟨"H", 1, 2, 3⟩] = none := by
    simp [calculate_compound_neutron_cross_section, hp, hagg]
  refine ⟨hval, ?_⟩
  simp only [create_plotting_dataframe, hval, hcross]

/-- C7 amended: whenever every formula parses and every valid formula's two
aggregations succeed (nonzero totals), the batch returns exactly one record
per valid formula, in input order, silently dropping the invalid ones; a
valid formula whose aggregation raises aborts the batch instead. -/
theorem claim7_batch_rows :
    ∀ (formulas : List String) (tbl : PropertiesTable),
      (∀ f ∈ formulas, (parse_formula f).isSome = true) →
      (∀ f ∈ formulas, is_valid_formula f (tableSymbols tbl) = some true →
        (calculate_compound_neutron_cross_section f tbl).isSome = true ∧
        (calculate_compound_neutron_mass_absorption f tbl).isSome = true) →
      ∃ rows : List PlotRow,
        create_plotting_dataframe formulas tbl = some rows ∧
        rows.map PlotRow.formula
          = formulas.filter
              (fun f => (is_valid_formula f (tableSymbols tbl)).getD false) ∧
        ∀ r ∈ rows,
          (calculate_compound_neutron_cross_section r.formula tbl).map Prod.fst
            = some r.neutronCrossSection ∧
          (calculate_compound_neutron_mass_absorption r.formula tbl).map Prod.fst
            = some r.neutronMassAbsorption := by
  intro formulas tbl
  induction formulas with
  | nil =>
    intro _ _
    exact ⟨[], rfl, rfl, by simp⟩
  | cons f fs ih =>
    intro hparse hagg
    obtain ⟨m, hm⟩ := Option.isSome_iff_exists.mp (hparse f (by simp))
    have hvb : is_valid_formula f (tableSymbols tbl)
        = some (m.all (fun p => (tableSymbols tbl).contains p.1)) := by
      simp [is_valid_formula, hm]
    obtain ⟨rows, hrows, hmap, hrec⟩ := ih (fun g hg => hparse g (by simp [hg]))
      (fun g hg hv => hagg g (by simp [hg]) hv)
    cases hbv : m.all (fun p => (tableSymbols tbl).contains p.1) with
    | false =>
      have hv2 : is_valid_formula f (tableSymbols tbl) = some false := by
        rw [hvb, hbv]
      refine ⟨rows, ?_, ?_, hrec⟩
      · have hstep : create_plotting_dataframe (f :: fs) tbl
            = create_plotting_dataframe fs tbl := by
          simp only [create_plotting_dataframe, hv2]
        rw [hstep, hrows]
      · rw [List.filter_cons]
        simp [hv2, hmap]
    | true =>
      have hv2 : is_valid_formula f (tableSymbols tbl) = some true := by
        rw [hvb, hbv]
      obtain ⟨hcs, hma⟩ := hagg f (by simp) hv2
      obtain ⟨cr, hcr⟩ := Option.isSome_iff_exists.mp hcs
      obtain ⟨ma, hma2⟩ := Option.isSome_iff_exists.mp hma
      refine ⟨⟨f, cr.1, ma.1⟩ :: rows, ?_, ?_, ?_⟩
      · have hstep : create_plotting_dataframe (f :: fs) tbl
            = (create_plotting_dataframe fs tbl).map
                (fun rest => ⟨f, cr.1, ma.1⟩ :: rest) := by
          simp only [create_plotting_dataframe, hv2, hcr, hma2]
        rw [hstep, hrows]
        rfl
      · rw [List.filter_cons]
        simp [hv2, hmap]
      · intro r hr
        rcases List.mem_cons.mp hr with h1 | h2
        · subst h1
          exact ⟨by rw [hcr]; rfl, by rw [hma2]; rfl⟩
        · exact hrec r h2

/-- Witness for claim7_batch_rows: one valid formula H2 and one invalid
formula Xx over a table listing only H. -/
theorem claim7_batch_rows_witness :
    ∃ rows : List PlotRow,
      create_plotting_dataframe ["H2", "Xx"] [⟨"H", 1, 2, 3⟩] = some rows ∧
      rows.map PlotRow.formula
        = ["H2", "Xx"].filter
            (fun f => (is_valid_formula f (tableSymbols [⟨"H", 1, 2, 3⟩])).getD false) ∧
      ∀ r ∈ rows,
        (calculate_compound_neutron_cross_section r.formula [⟨"H", 1, 2, 3⟩]).map Prod.fst
          = some r.neutronCrossSection ∧
        (calculate_compound_neutron_mass_absorption r.formula [⟨"H", 1, 2, 3⟩]).map Prod.fst
          = some r.neutronMassAbsorption := by
  apply claim7_batch_rows ["H2", "Xx"] [⟨"H", 1, 2, 3⟩] (by decide)
  intro f hf hv
  have hf2 : f = "H2" ∨ f = "Xx" := by simpa using hf
  rcases hf2 with rfl | rfl
  · have hp2 : parse_formula "H2" = some [("H", 2)] := by decide
    have htot : totalAtoms [("H", (2 : ℚ))] = 2 := by simp [totalAtoms, sumValues]
    have hfr : fractionsAux [("H", (2 : ℚ))] 2 = some [("H", 1)] := by
      norm_num [fractionsAux, pyDiv]
    constructor
    · simp [calculate_compound_neutron_cross_section, hp2, aggregateCrossSection,
        htot, hfr]
    · have hmc : massContribs [("H", (2 : ℚ))] [⟨"H", 1, 2, 3⟩] = [("H", 2)] := by
        simp [massContribs, dictGetD, dictGet, weightDict, List.lookup]
      have htm : totalMass [("H", (2 : ℚ))] [⟨"H", 1, 2, 3⟩] = 2 := by
        simp [totalMass, hmc, sumValues]
      simp [calculate_compound_neutron_mass_absorption, hp2, aggregateMassAbsorption,
        hmc, htm, hfr]
  · have : is_valid_formula "Xx" (tableSymbols [⟨"H", 1, 2, 3⟩]) = some false := by decide
    rw [this] at hv
    simp at hv
